import Mathlib

/-!
# Capstone character: mouse aim and camera-relative movement

A shallow embedding of `Source/Capstone/CapstoneCharacter.cpp`
(`ACapstoneCharacter::AimTowardMouse`, `ACapstoneCharacter::Move`).

Numbers.  The C++ code computes on IEEE floating-point values.  Here a number
is either a rational or one of the three special values `+inf`, `-inf`, `NaN`;
the special values follow the IEEE rules, so that a division by zero yields an
infinity or a NaN as it does in the program.  The sign of a zero is not
tracked: a non-zero value divided by zero takes the sign of the numerator.

Rounding.  Line 153 stores its quotient in a `float`: `FNum.toFloat` rounds a
value to IEEE single precision (nearest, ties to even, overflow to an
infinity); the quotient is rounded once, from its exact value.  The definitions of the aim take an `Arith`: with `Arith.single`
the quotient is stored as the program stores it; with `Arith.exact` it is kept
as it is, which is the exact arithmetic that some statements are about.  The
vector operations of the engine type `FVector` are carried out exactly: their
precision belongs to the engine and their rounding is not modelled.

Engine.  The functions of the host engine that the file calls but does not
define (`Atan2`, `Sqrt`, `SinCos`, the tolerances, ...) are the fields of
`Engine`; the theorems about the program hold for an arbitrary engine, and what
a theorem needs to know about the engine is an explicit hypothesis.  The
namespace `Sample` holds rational engines on which the hypotheses are met.
-/

namespace Capstone

/-! ## Numbers -/

/-- A floating-point value: an exact rational or an IEEE special value. -/
inductive FNum where
  | fin (q : ℚ)
  | pinf
  | ninf
  | nan
  deriving DecidableEq

namespace FNum

/-- The product of the rational `a` with `+inf`, also the quotient `a / 0`. -/
def sgnInf (a : ℚ) : FNum :=
  if a = 0 then nan else if 0 < a then pinf else ninf

/-- IEEE negation. -/
def neg : FNum → FNum
  | fin a => fin (-a)
  | pinf => ninf
  | ninf => pinf
  | nan => nan

/-- IEEE addition, exact on finite values. -/
def add : FNum → FNum → FNum
  | fin a, fin b => fin (a + b)
  | fin _, pinf => pinf
  | fin _, ninf => ninf
  | pinf, fin _ => pinf
  | ninf, fin _ => ninf
  | pinf, pinf => pinf
  | ninf, ninf => ninf
  | _, _ => nan

/-- IEEE subtraction, exact on finite values. -/
def sub (a b : FNum) : FNum := add a (neg b)

/-- IEEE multiplication, exact on finite values. -/
def mul : FNum → FNum → FNum
  | fin a, fin b => fin (a * b)
  | fin a, pinf => sgnInf a
  | fin a, ninf => sgnInf (-a)
  | pinf, fin b => sgnInf b
  | ninf, fin b => sgnInf (-b)
  | pinf, pinf => pinf
  | ninf, ninf => pinf
  | pinf, ninf => ninf
  | ninf, pinf => ninf
  | _, _ => nan

/-- IEEE division, exact on finite values with a non-zero divisor. -/
def div : FNum → FNum → FNum
  | fin a, fin b => if b = 0 then sgnInf a else fin (a / b)
  | fin _, pinf => fin 0
  | fin _, ninf => fin 0
  | pinf, fin b => if 0 ≤ b then pinf else ninf
  | ninf, fin b => if 0 ≤ b then ninf else pinf
  | _, _ => nan

/-- Absolute value, `FMath::Abs`. -/
def abs : FNum → FNum
  | fin a => fin |a|
  | pinf => pinf
  | ninf => pinf
  | nan => nan

/-- The comparison `a <= b` of C++: false as soon as one side is a NaN. -/
def le : FNum → FNum → Bool
  | fin a, fin b => decide (a ≤ b)
  | fin _, pinf => true
  | ninf, fin _ => true
  | ninf, ninf => true
  | ninf, pinf => true
  | pinf, pinf => true
  | _, _ => false

/-- The comparison `a < b` of C++: false as soon as one side is a NaN. -/
def lt : FNum → FNum → Bool
  | fin a, fin b => decide (a < b)
  | fin _, pinf => true
  | ninf, fin _ => true
  | ninf, pinf => true
  | _, _ => false

/-- The comparison `a == b` of C++: a NaN is equal to nothing. -/
def eq : FNum → FNum → Bool
  | fin a, fin b => decide (a = b)
  | pinf, pinf => true
  | ninf, ninf => true
  | _, _ => false

/-- A value is finite when it is neither an infinity nor a NaN. -/
def isFinite : FNum → Bool
  | fin _ => true
  | _ => false

/-- The integer nearest to a rational, the even one when two are as near. -/
def roundEven (x : ℚ) : ℤ :=
  if x - ⌊x⌋ < 1 / 2 then ⌊x⌋
  else if 1 / 2 < x - ⌊x⌋ then ⌊x⌋ + 1
  else if ⌊x⌋ % 2 = 0 then ⌊x⌋ else ⌊x⌋ + 1

/-- The conversion to `float`, IEEE single precision: 24 significant bits,
exponents from -126 to 127, rounding to nearest with ties to even; a finite
value that rounds beyond the largest `float` becomes an infinity, and the
special values are kept. -/
def toFloat : FNum → FNum
  | fin q =>
    if q = 0 then fin 0
    else
      let e : ℤ := max (Int.log 2 |q|) (-126)
      let ulp : ℚ := 2 ^ (e - 23)
      let r : ℚ := roundEven (q / ulp) * ulp
      if 2 ^ 128 ≤ |r| then (if 0 < q then pinf else ninf) else fin r
  | pinf => pinf
  | ninf => ninf
  | nan => nan

instance : Neg FNum := ⟨neg⟩
instance : Add FNum := ⟨add⟩
instance : Sub FNum := ⟨sub⟩
instance : Mul FNum := ⟨mul⟩
instance : Div FNum := ⟨div⟩

end FNum

/-- The arithmetic in which the quotient of line 153 is stored: `single` is the
program (`float Distance`), `exact` keeps the quotient as it is. -/
inductive Arith where
  | single
  | exact
  deriving DecidableEq

/-- The value stored when a `float` variable is assigned. -/
def Arith.store : Arith → FNum → FNum
  | Arith.single, x => x.toFloat
  | Arith.exact, x => x

/-! ## Vectors and rotators -/

/-- The engine's `FVector`. -/
structure FVector where
  X : FNum
  Y : FNum
  Z : FNum
  deriving DecidableEq

/-- The engine's `FVector2D`. -/
structure FVector2D where
  X : FNum
  Y : FNum
  deriving DecidableEq

/-- The engine's `FRotator` (angles in degrees, constructor order pitch, yaw, roll). -/
structure FRotator where
  Pitch : FNum
  Yaw : FNum
  Roll : FNum
  deriving DecidableEq

namespace FVector

/-- `FVector::operator+`, componentwise. -/
def add (a b : FVector) : FVector := ⟨a.X + b.X, a.Y + b.Y, a.Z + b.Z⟩

/-- `FVector::operator-`, componentwise. -/
def sub (a b : FVector) : FVector := ⟨a.X - b.X, a.Y - b.Y, a.Z - b.Z⟩

/-- `FVector::operator*(Scale)`, each component times the scalar. -/
def scale (a : FVector) (s : FNum) : FVector := ⟨a.X * s, a.Y * s, a.Z * s⟩

instance : Add FVector := ⟨add⟩
instance : Sub FVector := ⟨sub⟩
instance : HMul FVector FNum FVector := ⟨scale⟩

/-- The vector with the three finite components `x`, `y`, `z`. -/
def ofRat (x y z : ℚ) : FVector := ⟨FNum.fin x, FNum.fin y, FNum.fin z⟩

/-- The dot product `FVector::operator|`. -/
def dot (a b : FVector) : FNum := a.X * b.X + a.Y * b.Y + a.Z * b.Z

end FVector

/-! ## The engine -/

/-- The engine functions and constants used by the file and absent from it. -/
structure Engine where
  /-- The constant `KINDA_SMALL_NUMBER`, default tolerance of `IsNearlyZero`. -/
  KindaSmallNumber : ℚ
  /-- The constant `SMALL_NUMBER`, default tolerance of `GetSafeNormal`. -/
  SmallNumber : ℚ
  /-- The function `FMath::Atan2(Y, X)`, in radians. -/
  Atan2 : FNum → FNum → FNum
  /-- The function `FMath::Sqrt`. -/
  Sqrt : FNum → FNum
  /-- The function `FMath::InvSqrt`. -/
  InvSqrt : FNum → FNum
  /-- The function `FMath::RadiansToDegrees`. -/
  RadiansToDegrees : FNum → FNum
  /-- The function `FMath::DegreesToRadians`. -/
  DegreesToRadians : FNum → FNum
  /-- The function `FMath::SinCos`, returning the pair (sine, cosine) of an angle in radians. -/
  SinCos : FNum → FNum × FNum

namespace FVector

/-- Modelled from the spec: `FVector::IsNearlyZero` is engine code absent from the
file; the spec (4.1 step 4) calls it "near-zero magnitude (below a small
epsilon)".  The engine tests each component: `|X| <= Tolerance`, `|Y| <=
Tolerance` and `|Z| <= Tolerance`, with the default tolerance
`KINDA_SMALL_NUMBER`. -/
def IsNearlyZero (E : Engine) (v : FVector) : Bool :=
  (v.X.abs.le (FNum.fin E.KindaSmallNumber))
    && (v.Y.abs.le (FNum.fin E.KindaSmallNumber))
    && (v.Z.abs.le (FNum.fin E.KindaSmallNumber))

/-- Modelled from the spec: `FVector::Rotation` is engine code absent from the
file; the spec (4.1 step 5) calls it the "standard vector-to-heading
conversion (`yaw = atan2(D.y, D.x)` or engine-equivalent)".  The engine
computes, in degrees, `Yaw = Atan2(Y, X)`, `Pitch = Atan2(Z, Sqrt(X*X + Y*Y))`
and `Roll = 0`. -/
def Rotation (E : Engine) (v : FVector) : FRotator :=
  { Pitch := E.RadiansToDegrees (E.Atan2 v.Z (E.Sqrt (v.X * v.X + v.Y * v.Y)))
    Yaw := E.RadiansToDegrees (E.Atan2 v.Y v.X)
    Roll := FNum.fin 0 }

/-- Modelled from the spec: `FVector::GetSafeNormal` is engine code absent from
the file (the spec names it only through "unit axes").  The engine returns the
vector itself when its squared length is exactly 1, the zero vector when the
squared length is below `SMALL_NUMBER`, and the vector scaled by
`InvSqrt(SquareSum)` otherwise. -/
def GetSafeNormal (E : Engine) (v : FVector) : FVector :=
  let SquareSum := v.X * v.X + v.Y * v.Y + v.Z * v.Z
  if SquareSum.eq (FNum.fin 1) then v
  else if SquareSum.lt (FNum.fin E.SmallNumber) then ofRat 0 0 0
  else
    let Scale := E.InvSqrt SquareSum
    ⟨v.X * Scale, v.Y * Scale, v.Z * Scale⟩

/-- The factor by which `GetSafeNormal` multiplies a finite vector of squared
length `S`, when `InvSqrt(S)` is the finite value `k`: 1 when `S` is exactly 1,
0 when `S` is below `SMALL_NUMBER`, `k` otherwise. -/
def safeNormalFactor (E : Engine) (S k : ℚ) : ℚ :=
  if S = 1 then 1 else if S < E.SmallNumber then 0 else k

end FVector

/-- The three axes `EAxis::X`, `EAxis::Y`, `EAxis::Z`. -/
inductive EAxis where
  | X
  | Y
  | Z
  deriving DecidableEq

/-- The upper 3x3 block of the engine's `FRotationMatrix`, as its three rows. -/
structure FRotationMatrix where
  Row0 : FVector
  Row1 : FVector
  Row2 : FVector

namespace FRotationMatrix

/-- Modelled from the spec: the constructor `FRotationMatrix(Rot)` is engine code
absent from the file.  With `SP, CP`, `SY, CY`, `SR, CR` the sine and cosine of
pitch, yaw and roll, the engine fills the rows
`(CP*CY, CP*SY, SP)`, `(SR*SP*CY - CR*SY, SR*SP*SY + CR*CY, -SR*CP)` and
`(-(CR*SP*CY + SR*SY), CY*SR - CR*SP*SY, CR*CP)`. -/
def make (E : Engine) (Rot : FRotator) : FRotationMatrix :=
  let SP := (E.SinCos (E.DegreesToRadians Rot.Pitch)).1
  let CP := (E.SinCos (E.DegreesToRadians Rot.Pitch)).2
  let SY := (E.SinCos (E.DegreesToRadians Rot.Yaw)).1
  let CY := (E.SinCos (E.DegreesToRadians Rot.Yaw)).2
  let SR := (E.SinCos (E.DegreesToRadians Rot.Roll)).1
  let CR := (E.SinCos (E.DegreesToRadians Rot.Roll)).2
  { Row0 := ⟨CP * CY, CP * SY, SP⟩
    Row1 := ⟨SR * SP * CY - CR * SY, SR * SP * SY + CR * CY, -SR * CP⟩
    Row2 := ⟨-(CR * SP * CY + SR * SY), CY * SR - CR * SP * SY, CR * CP⟩ }

/-- The row of the matrix for an axis, `GetScaledAxis`. -/
def GetScaledAxis (M : FRotationMatrix) : EAxis → FVector
  | EAxis.X => M.Row0
  | EAxis.Y => M.Row1
  | EAxis.Z => M.Row2

/-- The normalised row of the matrix for an axis, `GetUnitAxis`. -/
def GetUnitAxis (E : Engine) (M : FRotationMatrix) (a : EAxis) : FVector :=
  (M.GetScaledAxis a).GetSafeNormal E

end FRotationMatrix

/-! ## The character -/

/-- What the `Controller` pointer of the pawn points to, when it is not null. -/
inductive ControllerKind where
  | player
  | other
  deriving DecidableEq

/-- The part of the actor's state that the two functions read and write. -/
structure ACapstoneCharacter where
  /-- The `Controller` pointer: `none` is `nullptr`. -/
  Controller : Option ControllerKind
  /-- The world rotation of `FollowCamera`, `FollowCamera->GetComponentRotation()`. -/
  CameraRotation : FRotator
  /-- The actor location, `GetActorLocation()`. -/
  Location : FVector
  /-- The actor rotation, written by `SetActorRotation`. -/
  Rotation : FRotator
  deriving DecidableEq

namespace ACapstoneCharacter

/-- The test `Cast<APlayerController>(GetController())` is not null. -/
def hasPlayerController (self : ACapstoneCharacter) : Bool :=
  self.Controller = some ControllerKind.player

/-- The engine call `SetActorRotation`: the rotation is overwritten, nothing else. -/
def SetActorRotation (self : ACapstoneCharacter) (NewRotation : FRotator) :
    ACapstoneCharacter :=
  { self with Rotation := NewRotation }

/-- Line 153: `float Distance = (CharacterLocation.Z - WorldLocation.Z) /
WorldDirection.Z`, the quotient stored in a `float`. -/
def Distance (m : Arith) (CharacterLocation WorldLocation WorldDirection : FVector) : FNum :=
  m.store ((CharacterLocation.Z - WorldLocation.Z) / WorldDirection.Z)

/-- Line 154: `WorldLocation + WorldDirection * Distance`. -/
def MouseWorldPosition (m : Arith) (CharacterLocation WorldLocation WorldDirection : FVector) :
    FVector :=
  WorldLocation + WorldDirection * Distance m CharacterLocation WorldLocation WorldDirection

/-- Lines 157-158: `MouseWorldPosition - CharacterLocation` with `Z` set to 0. -/
def Direction (m : Arith) (CharacterLocation WorldLocation WorldDirection : FVector) :
    FVector :=
  let Direction :=
    MouseWorldPosition m CharacterLocation WorldLocation WorldDirection - CharacterLocation
  { Direction with Z := FNum.fin 0 }

/-- The argument of the call of `SetActorRotation` made by `AimTowardMouse`, or
`none` when the function makes no such call.  The argument `mouse` is the
outcome of `DeprojectMousePositionToWorld`: `none` when it returns false, the
pair `(WorldLocation, WorldDirection)` when it returns true. -/
def aimRotation (m : Arith) (E : Engine) (self : ACapstoneCharacter)
    (mouse : Option (FVector × FVector)) : Option FRotator :=
  if !self.hasPlayerController then none
  else
    match mouse with
    | none => none
    | some (WorldLocation, WorldDirection) =>
      let CharacterLocation := self.Location
      let Direction := Direction m CharacterLocation WorldLocation WorldDirection
      if !Direction.IsNearlyZero E then some (Direction.Rotation E) else none

/-- The function `ACapstoneCharacter::AimTowardMouse`, lines 143-166. -/
def AimTowardMouse (m : Arith) (E : Engine) (self : ACapstoneCharacter)
    (mouse : Option (FVector × FVector)) : ACapstoneCharacter :=
  match aimRotation m E self mouse with
  | some NewRotation => self.SetActorRotation NewRotation
  | none => self

/-- The function `ACapstoneCharacter::Move`, lines 100-118: the list of the calls
`AddMovementInput(WorldDirection, ScaleValue)` it makes, in order. -/
def Move (E : Engine) (self : ACapstoneCharacter) (MovementVector : FVector2D) :
    List (FVector × FNum) :=
  if self.Controller ≠ none then
    let CameraRotation := self.CameraRotation
    let YawRotation : FRotator := ⟨FNum.fin 0, CameraRotation.Yaw, FNum.fin 0⟩
    let Forward := (FRotationMatrix.make E YawRotation).GetUnitAxis E EAxis.X
    let Right := (FRotationMatrix.make E YawRotation).GetUnitAxis E EAxis.Y
    [(Forward, MovementVector.Y), (Right, MovementVector.X)]
  else []

/-- The movement requested by a list of `AddMovementInput` calls: the engine adds
`WorldDirection * ScaleValue` of each call to the pending input vector. -/
def pendingInput : List (FVector × FNum) → FVector
  | [] => FVector.ofRat 0 0 0
  | (d, s) :: rest => d * s + pendingInput rest

end ACapstoneCharacter

/-! ## Rational engines

Instances of `Engine` over the rationals.  They show that the engine
hypotheses of the theorems below can be met, and let the definitions be
evaluated on concrete inputs. -/

namespace Sample

/-- The rational taken for the circle constant. -/
def Pi : ℚ := 355 / 113

/-- Five Newton steps towards the square root of a positive rational, from the
power of two nearest to it. -/
def newton (q : ℚ) : ℚ :=
  let step := fun x : ℚ => (x + q / x) / 2
  step (step (step (step (step (2 ^ ((Int.log 2 q + 1) / 2))))))

/-- The square root: a NaN below zero, exact at zero, approximate above. -/
def Sqrt : FNum → FNum
  | FNum.fin q => if q < 0 then FNum.nan else if q = 0 then FNum.fin 0 else FNum.fin (newton q)
  | FNum.pinf => FNum.pinf
  | _ => FNum.nan

/-- The odd polynomial approximating the arc tangent on the interval from 0 to 1. -/
def atanPoly (t : ℚ) : ℚ :=
  let t4 := t * t
  ((((((72 / 10000 * t4 - 351 / 10000) * t4 + 817 / 10000) * t4
    - 1337 / 10000) * t4 + 1986 / 10000) * t4 - 3332 / 10000) * t4 + 1) * t

/-- The two-argument arc tangent of finite values, by reduction to the first octant. -/
def atan2Rat (Y X : ℚ) : ℚ :=
  let yAbsBigger := |X| < |Y|
  let t0 := if yAbsBigger then |Y| else |X|
  let t1 := if yAbsBigger then |X| else |Y|
  if t0 = 0 then 0
  else
    let t3 := atanPoly (t1 / t0)
    let t3 := if yAbsBigger then Pi / 2 - t3 else t3
    let t3 := if X < 0 then Pi - t3 else t3
    if Y < 0 then -t3 else t3

/-- The two-argument arc tangent, with the IEEE values at the infinities and a
NaN as soon as an argument is a NaN. -/
def Atan2 : FNum → FNum → FNum
  | FNum.fin Y, FNum.fin X => FNum.fin (atan2Rat Y X)
  | FNum.fin _, FNum.pinf => FNum.fin 0
  | FNum.fin Y, FNum.ninf => if Y < 0 then FNum.fin (-Pi) else FNum.fin Pi
  | FNum.pinf, FNum.fin _ => FNum.fin (Pi / 2)
  | FNum.ninf, FNum.fin _ => FNum.fin (-(Pi / 2))
  | FNum.pinf, FNum.pinf => FNum.fin (Pi / 4)
  | FNum.pinf, FNum.ninf => FNum.fin (3 * Pi / 4)
  | FNum.ninf, FNum.pinf => FNum.fin (-(Pi / 4))
  | FNum.ninf, FNum.ninf => FNum.fin (-(3 * Pi / 4))
  | _, _ => FNum.nan

/-- The polynomial of degree 11 approximating the sine up to a quarter turn. -/
def sinPoly (y : ℚ) : ℚ :=
  let y2 := y * y
  (((((-1 / 39916800 * y2 + 1 / 362880) * y2 - 1 / 5040) * y2 + 1 / 120) * y2 - 1 / 6) * y2
    + 1) * y

/-- The polynomial of degree 10 approximating the cosine up to a quarter turn. -/
def cosPoly (y : ℚ) : ℚ :=
  let y2 := y * y
  ((((-1 / 3628800 * y2 + 1 / 40320) * y2 - 1 / 720) * y2 + 1 / 24) * y2 - 1 / 2) * y2 + 1

/-- The angle brought back between minus and plus half a turn. -/
def reduce (r : ℚ) : ℚ := r - 2 * Pi * FNum.roundEven (r / (2 * Pi))

/-- The sine of a finite angle in radians. -/
def sinRat (r : ℚ) : ℚ :=
  let y := reduce r
  if Pi / 2 < y then sinPoly (Pi - y)
  else if y < -(Pi / 2) then sinPoly (-Pi - y)
  else sinPoly y

/-- The cosine of a finite angle in radians. -/
def cosRat (r : ℚ) : ℚ :=
  let y := reduce r
  if Pi / 2 < y then -cosPoly (Pi - y)
  else if y < -(Pi / 2) then -cosPoly (-Pi - y)
  else cosPoly y

/-- Sine and cosine: a NaN when the angle is not finite. -/
def SinCos : FNum → FNum × FNum
  | FNum.fin r => (FNum.fin (sinRat r), FNum.fin (cosRat r))
  | _ => (FNum.nan, FNum.nan)

/-- The rational engine. -/
def engine : Engine where
  KindaSmallNumber := 1 / 10000
  SmallNumber := 1 / 100000000
  Atan2 := Atan2
  Sqrt := Sqrt
  InvSqrt := fun x => FNum.fin 1 / Sqrt x
  RadiansToDegrees := fun x => x * FNum.fin (180 / Pi)
  DegreesToRadians := fun x => x * FNum.fin (Pi / 180)
  SinCos := SinCos

/-- A character driven by a player, at the origin, with no rotation, under the
camera of the constructor. -/
def player : ACapstoneCharacter where
  Controller := some ControllerKind.player
  CameraRotation := ⟨FNum.fin (-45), FNum.fin 45, FNum.fin 0⟩
  Location := FVector.ofRat 0 0 0
  Rotation := ⟨FNum.fin 0, FNum.fin 0, FNum.fin 0⟩

end Sample

/-! ## Arithmetic on finite values -/

namespace FNum

@[simp] theorem fin_add (a b : ℚ) : fin a + fin b = fin (a + b) := rfl

@[simp] theorem fin_sub (a b : ℚ) : fin a - fin b = fin (a - b) := by
  show fin (a + -b) = fin (a - b)
  rw [sub_eq_add_neg]

@[simp] theorem fin_mul (a b : ℚ) : fin a * fin b = fin (a * b) := rfl

@[simp] theorem fin_neg (a : ℚ) : -fin a = fin (-a) := rfl

theorem fin_div (a b : ℚ) : fin a / fin b = if b = 0 then sgnInf a else fin (a / b) := rfl

@[simp] theorem fin_div_of_ne (a : ℚ) {b : ℚ} (h : b ≠ 0) : fin a / fin b = fin (a / b) := by
  rw [fin_div, if_neg h]

@[simp] theorem fin_abs (a : ℚ) : (fin a).abs = fin |a| := rfl

@[simp] theorem fin_le (a b : ℚ) : (fin a).le (fin b) = decide (a ≤ b) := rfl

@[simp] theorem fin_lt (a b : ℚ) : (fin a).lt (fin b) = decide (a < b) := rfl

@[simp] theorem fin_eq (a b : ℚ) : (fin a).eq (fin b) = decide (a = b) := rfl

end FNum

namespace FVector

@[simp] theorem add_def (a b : FVector) : a + b = ⟨a.X + b.X, a.Y + b.Y, a.Z + b.Z⟩ := rfl

@[simp] theorem sub_def (a b : FVector) : a - b = ⟨a.X - b.X, a.Y - b.Y, a.Z - b.Z⟩ := rfl

@[simp] theorem scale_def (a : FVector) (s : FNum) : a * s = ⟨a.X * s, a.Y * s, a.Z * s⟩ := rfl

end FVector

/-! ## Rounding to single precision -/

namespace FNum

/-- A rational strictly within a half of an integer rounds to that integer. -/
theorem roundEven_eq (x : ℚ) (n : ℤ) (h1 : (n : ℚ) - 1 / 2 < x) (h2 : x < n + 1 / 2) :
    roundEven x = n := by
  unfold roundEven
  by_cases hx : (n : ℚ) ≤ x
  · have hf : ⌊x⌋ = n := Int.floor_eq_iff.mpr ⟨hx, by linarith⟩
    rw [hf, if_pos (by linarith)]
  · have hx : x < n := not_le.mp hx
    have hf : ⌊x⌋ = n - 1 :=
      Int.floor_eq_iff.mpr ⟨by push_cast; linarith, by push_cast; linarith⟩
    rw [hf]
    have h3 : ¬ (x - ((n - 1 : ℤ) : ℚ) < 1 / 2) := by push_cast; linarith
    have h4 : (1 : ℚ) / 2 < x - ((n - 1 : ℤ) : ℚ) := by push_cast; linarith
    rw [if_neg h3, if_pos h4]
    ring

/-- The binary exponent of a positive rational, from its two bounds. -/
theorem log_two_eq (x : ℚ) (e : ℤ) (h1 : (2 : ℚ) ^ e ≤ x) (h2 : x < 2 ^ (e + 1)) :
    Int.log 2 x = e := by
  have hx : 0 < x := lt_of_lt_of_le (by positivity) h1
  have a : e ≤ Int.log 2 x :=
    (Int.zpow_le_iff_le_log (by norm_num) hx).mp (by exact_mod_cast h1)
  have b : Int.log 2 x < e + 1 :=
    (Int.lt_zpow_iff_log_lt (by norm_num) hx).mp (by exact_mod_cast h2)
  omega

/-- The `float` nearest to a rational of binary exponent `e ≥ -126`, from the
integer `n` nearest to the rational counted in units of `2 ^ (e - 23)`. -/
theorem toFloat_fin_eq (q : ℚ) (e n : ℤ) (h1 : (2 : ℚ) ^ e ≤ |q|) (h2 : |q| < 2 ^ (e + 1))
    (he : -126 ≤ e) (hn1 : (n : ℚ) - 1 / 2 < q / 2 ^ (e - 23))
    (hn2 : q / 2 ^ (e - 23) < n + 1 / 2) (hr : |(n : ℚ) * 2 ^ (e - 23)| < 2 ^ 128) :
    toFloat (fin q) = fin (n * 2 ^ (e - 23)) := by
  have hq : q ≠ 0 := by
    intro h
    rw [h, abs_zero] at h1
    exact absurd h1 (not_le.mpr (by positivity))
  have hlog : max (Int.log 2 |q|) (-126) = e := by
    rw [log_two_eq |q| e h1 h2]
    exact max_eq_left he
  simp only [toFloat, hq, if_false, hlog, roundEven_eq _ n hn1 hn2, not_le.mpr hr]

@[simp] theorem store_exact (x : FNum) : Arith.exact.store x = x := rfl

@[simp] theorem store_single (x : FNum) : Arith.single.store x = x.toFloat := rfl

theorem toFloat_not_finite {x : FNum} (h : x.isFinite = false) :
    x.toFloat.isFinite = false := by
  cases x with
  | fin q => simp [isFinite] at h
  | pinf => rfl
  | ninf => rfl
  | nan => rfl

theorem store_not_finite (m : Arith) {x : FNum} (h : x.isFinite = false) :
    (m.store x).isFinite = false := by
  cases m with
  | single => exact toFloat_not_finite h
  | exact => exact h

/-- The value 1000 is a `float`. -/
theorem store_1000 (m : Arith) : m.store (fin 1000) = fin 1000 := by
  cases m with
  | exact => rfl
  | single =>
    have h := toFloat_fin_eq 1000 9 16384000 (by norm_num) (by norm_num) (by norm_num)
      (by norm_num) (by norm_num) (by norm_num)
    rw [store_single, h]
    norm_num

end FNum

/-! ## Values that are not finite -/

namespace FNum

theorem sgnInf_not_finite (a : ℚ) : (sgnInf a).isFinite = false := by
  unfold sgnInf
  split_ifs <;> rfl

theorem fin_mul_not_finite (a : ℚ) {x : FNum} (h : x.isFinite = false) :
    (fin a * x).isFinite = false := by
  cases x with
  | fin q => simp [isFinite] at h
  | pinf => exact sgnInf_not_finite a
  | ninf => exact sgnInf_not_finite (-a)
  | nan => rfl

theorem fin_add_not_finite (a : ℚ) {x : FNum} (h : x.isFinite = false) :
    (fin a + x).isFinite = false := by
  cases x with
  | fin q => simp [isFinite] at h
  | pinf => rfl
  | ninf => rfl
  | nan => rfl

theorem sub_fin_not_finite {x : FNum} (a : ℚ) (h : x.isFinite = false) :
    (x - fin a).isFinite = false := by
  cases x with
  | fin q => simp [isFinite] at h
  | pinf => rfl
  | ninf => rfl
  | nan => rfl

theorem abs_le_fin_of_not_finite {x : FNum} (t : ℚ) (h : x.isFinite = false) :
    x.abs.le (fin t) = false := by
  cases x with
  | fin q => simp [isFinite] at h
  | pinf => rfl
  | ninf => rfl
  | nan => rfl

end FNum

namespace ACapstoneCharacter

open FNum FVector

/-- With a ray that is not horizontal, the value of `Distance` is the stored
quotient. -/
theorem distance_of_ne_zero (m : Arith) (ax ay az ox oy oz dx dy dz : ℚ) (hz : dz ≠ 0) :
    Distance m (ofRat ax ay az) (ofRat ox oy oz) (ofRat dx dy dz)
      = m.store (fin ((az - oz) / dz)) := by
  simp [Distance, ofRat, hz]

/-- When the stored quotient is the finite value `t`, the intersection point is
`O + Dir * t`. -/
theorem mouseWorldPosition_of_store (m : Arith) (ax ay az ox oy oz dx dy dz t : ℚ)
    (hz : dz ≠ 0) (ht : m.store (fin ((az - oz) / dz)) = fin t) :
    MouseWorldPosition m (ofRat ax ay az) (ofRat ox oy oz) (ofRat dx dy dz)
      = ofRat (ox + dx * t) (oy + dy * t) (oz + dz * t) := by
  simp only [MouseWorldPosition, distance_of_ne_zero m ax ay az ox oy oz dx dy dz hz, ht]
  simp [ofRat]

/-- When the stored quotient is the finite value `t`, the direction is the
horizontal part of `O + Dir * t - A`. -/
theorem direction_of_store (m : Arith) (ax ay az ox oy oz dx dy dz t : ℚ)
    (hz : dz ≠ 0) (ht : m.store (fin ((az - oz) / dz)) = fin t) :
    Direction m (ofRat ax ay az) (ofRat ox oy oz) (ofRat dx dy dz)
      = ofRat (ox + dx * t - ax) (oy + dy * t - ay) 0 := by
  simp only [Direction, mouseWorldPosition_of_store m ax ay az ox oy oz dx dy dz t hz ht]
  simp [ofRat]

/-- With a horizontal ray the first component of the direction is an infinity
or a NaN. -/
theorem direction_x_of_zero (m : Arith) (ax ay az ox oy oz dx dy : ℚ) :
    (Direction m (ofRat ax ay az) (ofRat ox oy oz) (ofRat dx dy 0)).X.isFinite = false := by
  have hd : (Distance m (ofRat ax ay az) (ofRat ox oy oz) (ofRat dx dy 0)).isFinite = false := by
    simp only [Distance, ofRat, fin_sub, fin_div, if_true]
    exact store_not_finite m (sgnInf_not_finite _)
  simp only [Direction, MouseWorldPosition, ofRat, add_def, sub_def, scale_def]
  exact sub_fin_not_finite ax (fin_add_not_finite ox (fin_mul_not_finite dx hd))

/-- A vector whose first component is not finite is not nearly zero. -/
theorem not_nearly_zero_of_not_finite (E : Engine) (v : FVector)
    (h : v.X.isFinite = false) : v.IsNearlyZero E = false := by
  simp [IsNearlyZero, abs_le_fin_of_not_finite _ h]

/-- The call made by `AimTowardMouse` for a player: none when the direction is
nearly zero, the rotation of the direction otherwise. -/
theorem aimRotation_of_player (m : Arith) (E : Engine) (cam rot : FRotator)
    (A O Dir : FVector) :
    aimRotation m E ⟨some ControllerKind.player, cam, A, rot⟩ (some (O, Dir))
      = if (Direction m A O Dir).IsNearlyZero E then none
        else some ((Direction m A O Dir).Rotation E) := by
  simp only [aimRotation, hasPlayerController]
  cases h : (Direction m A O Dir).IsNearlyZero E <;> simp

/-- Without a player controller `AimTowardMouse` makes no call. -/
theorem aimRotation_of_no_player (m : Arith) (E : Engine) (self : ACapstoneCharacter)
    (mouse : Option (FVector × FVector)) (h : self.Controller ≠ some ControllerKind.player) :
    aimRotation m E self mouse = none := by
  simp [aimRotation, hasPlayerController, h]

/-- The state after `AimTowardMouse` when a call is made. -/
theorem aimTowardMouse_of_some (m : Arith) (E : Engine) (self : ACapstoneCharacter)
    (mouse : Option (FVector × FVector)) (R : FRotator) (h : aimRotation m E self mouse = some R) :
    AimTowardMouse m E self mouse = { self with Rotation := R } := by
  simp [AimTowardMouse, h, SetActorRotation]

/-- The state after `AimTowardMouse` when no call is made. -/
theorem aimTowardMouse_of_none (m : Arith) (E : Engine) (self : ACapstoneCharacter)
    (mouse : Option (FVector × FVector)) (h : aimRotation m E self mouse = none) :
    AimTowardMouse m E self mouse = self := by
  simp [AimTowardMouse, h]

/-! ## Two concrete rays -/

/-- C3 (the code at a horizontal ray): for a player-controlled actor at any
finite position and any finite ray whose direction has z-component zero, the
first component of the direction computed by `AimTowardMouse` is an infinity or
a NaN, the test `IsNearlyZero` fails, and `AimTowardMouse` does call
`SetActorRotation`: the actor's rotation is overwritten by the rotation of that
direction.  For the ray from `(0,0,1000)` along `(1,0,0)` and the actor at the
origin the direction is `(-inf, NaN, 0)`. -/
theorem aim_horizontal_ray_applies_rotation (m : Arith) (E : Engine) (cam rot : FRotator)
    (ax ay az ox oy oz dx dy : ℚ) :
    (Direction m (ofRat ax ay az) (ofRat ox oy oz) (ofRat dx dy 0)).X.isFinite = false
    ∧ aimRotation m E ⟨some ControllerKind.player, cam, ofRat ax ay az, rot⟩
        (some (ofRat ox oy oz, ofRat dx dy 0))
      = some ((Direction m (ofRat ax ay az) (ofRat ox oy oz) (ofRat dx dy 0)).Rotation E)
    ∧ (AimTowardMouse m E ⟨some ControllerKind.player, cam, ofRat ax ay az, rot⟩
        (some (ofRat ox oy oz, ofRat dx dy 0))).Rotation
      = (Direction m (ofRat ax ay az) (ofRat ox oy oz) (ofRat dx dy 0)).Rotation E
    ∧ Direction m (ofRat 0 0 0) (ofRat 0 0 1000) (ofRat 1 0 0) = ⟨ninf, nan, fin 0⟩ := by
  have hx := direction_x_of_zero m ax ay az ox oy oz dx dy
  have hn := not_nearly_zero_of_not_finite E _ hx
  have hr : aimRotation m E ⟨some ControllerKind.player, cam, ofRat ax ay az, rot⟩
        (some (ofRat ox oy oz, ofRat dx dy 0))
      = some ((Direction m (ofRat ax ay az) (ofRat ox oy oz) (ofRat dx dy 0)).Rotation E) := by
    rw [aimRotation_of_player, hn]
    rfl
  refine ⟨hx, hr, ?_, ?_⟩
  · rw [aimTowardMouse_of_some m E _ _ _ hr]
  · have hd : Distance m (ofRat 0 0 0) (ofRat 0 0 1000) (ofRat 1 0 0) = ninf := by
      have hq : Distance Arith.exact (ofRat 0 0 0) (ofRat 0 0 1000) (ofRat 1 0 0) = ninf := by
        norm_num [Distance, ofRat, fin_div, sgnInf]
      cases m with
      | exact => exact hq
      | single =>
        have hs : Distance Arith.single (ofRat 0 0 0) (ofRat 0 0 1000) (ofRat 1 0 0)
            = (Distance Arith.exact (ofRat 0 0 0) (ofRat 0 0 1000) (ofRat 1 0 0)).toFloat := rfl
        rw [hs, hq]
        rfl
    have e1 : fin 1 * ninf = ninf := by
      show sgnInf (-1) = ninf
      norm_num [sgnInf]
    have e0 : fin 0 * ninf = nan := by
      show sgnInf (-0) = nan
      norm_num [sgnInf]
    simp only [Direction, MouseWorldPosition, hd]
    simp only [ofRat, add_def, sub_def, scale_def, e1, e0]
    rfl

/-- C5: if the actor has no player controller, or the deprojection of the mouse
position produces no ray, `AimTowardMouse` makes no call of `SetActorRotation`
and returns the actor as it was (the function is total: it cannot fail). -/
theorem aim_skips_without_controller_or_ray (m : Arith) (E : Engine)
    (self : ACapstoneCharacter) (mouse : Option (FVector × FVector))
    (h : self.Controller ≠ some ControllerKind.player ∨ mouse = none) :
    aimRotation m E self mouse = none ∧ AimTowardMouse m E self mouse = self := by
  have hr : aimRotation m E self mouse = none := by
    rcases h with h | h
    · exact aimRotation_of_no_player m E self mouse h
    · subst h
      simp [aimRotation]
  exact ⟨hr, aimTowardMouse_of_none m E self mouse hr⟩

/-- C5, at a concrete input: a player whose deprojection fails. -/
theorem aim_skips_without_controller_or_ray_witness :
    aimRotation Arith.single Sample.engine Sample.player none = none
    ∧ AimTowardMouse Arith.single Sample.engine Sample.player none = Sample.player :=
  aim_skips_without_controller_or_ray Arith.single Sample.engine Sample.player none
    (Or.inr rfl)

/-- The values computed for `A = (0,0,0)`, ray origin `(0,0,1000)` and ray
direction `(1,0,-1)`, however the quotient is stored. -/
theorem concrete_values (m : Arith) :
    Distance m (ofRat 0 0 0) (ofRat 0 0 1000) (ofRat 1 0 (-1)) = fin 1000
    ∧ MouseWorldPosition m (ofRat 0 0 0) (ofRat 0 0 1000) (ofRat 1 0 (-1)) = ofRat 1000 0 0
    ∧ Direction m (ofRat 0 0 0) (ofRat 0 0 1000) (ofRat 1 0 (-1)) = ofRat 1000 0 0 := by
  have ht : m.store (fin ((0 - 1000) / (-1))) = fin 1000 := by
    rw [← store_1000 m]
    norm_num
  refine ⟨?_, ?_, ?_⟩
  · rw [distance_of_ne_zero m 0 0 0 0 0 1000 1 0 (-1) (by norm_num), ht]
  · rw [mouseWorldPosition_of_store m 0 0 0 0 0 1000 1 0 (-1) 1000 (by norm_num) ht]
    norm_num [ofRat]
  · rw [direction_of_store m 0 0 0 0 0 1000 1 0 (-1) 1000 (by norm_num) ht]
    norm_num [ofRat]

/-- C6 (as stated): for `A = (0,0,0)`, ray origin `(0,0,1000)` and ray direction
`(1,0,-1)` the ray parameter is not 1, the intersection point is not `(1,0,0)`
and the direction is not `(1,0,0)`, in the program and in exact arithmetic. -/
theorem aim_unit_parameter_refuted :
    Distance Arith.single (ofRat 0 0 0) (ofRat 0 0 1000) (ofRat 1 0 (-1)) ≠ fin 1
    ∧ MouseWorldPosition Arith.single (ofRat 0 0 0) (ofRat 0 0 1000) (ofRat 1 0 (-1))
      ≠ ofRat 1 0 0
    ∧ Direction Arith.single (ofRat 0 0 0) (ofRat 0 0 1000) (ofRat 1 0 (-1)) ≠ ofRat 1 0 0
    ∧ Distance Arith.exact (ofRat 0 0 0) (ofRat 0 0 1000) (ofRat 1 0 (-1)) ≠ fin 1
    ∧ MouseWorldPosition Arith.exact (ofRat 0 0 0) (ofRat 0 0 1000) (ofRat 1 0 (-1))
      ≠ ofRat 1 0 0
    ∧ Direction Arith.exact (ofRat 0 0 0) (ofRat 0 0 1000) (ofRat 1 0 (-1)) ≠ ofRat 1 0 0 := by
  obtain ⟨s1, s2, s3⟩ := concrete_values Arith.single
  obtain ⟨e1, e2, e3⟩ := concrete_values Arith.exact
  rw [s1, s2, s3, e1, e2, e3]
  norm_num [ofRat]

/-- C6 (amended): for `A = (0,0,0)`, ray origin `(0,0,1000)` and ray direction
`(1,0,-1)` the ray parameter is 1000, the intersection point is `(1000,0,0)`,
the direction is `(1000,0,0)`, and, for an engine whose tolerance is below 1000
and whose arc tangent of `(0, 1000)` is 0 degrees, a rotation of yaw 0 is
applied. -/
theorem aim_concrete_case (m : Arith) (E : Engine) (cam rot : FRotator)
    (htol : E.KindaSmallNumber < 1000)
    (h0 : E.RadiansToDegrees (E.Atan2 (fin 0) (fin 1000)) = fin 0) :
    Distance m (ofRat 0 0 0) (ofRat 0 0 1000) (ofRat 1 0 (-1)) = fin 1000
    ∧ MouseWorldPosition m (ofRat 0 0 0) (ofRat 0 0 1000) (ofRat 1 0 (-1)) = ofRat 1000 0 0
    ∧ Direction m (ofRat 0 0 0) (ofRat 0 0 1000) (ofRat 1 0 (-1)) = ofRat 1000 0 0
    ∧ ∃ R : FRotator,
        aimRotation m E ⟨some ControllerKind.player, cam, ofRat 0 0 0, rot⟩
            (some (ofRat 0 0 1000, ofRat 1 0 (-1))) = some R
        ∧ (AimTowardMouse m E ⟨some ControllerKind.player, cam, ofRat 0 0 0, rot⟩
            (some (ofRat 0 0 1000, ofRat 1 0 (-1)))).Rotation = R
        ∧ R.Yaw = fin 0 := by
  obtain ⟨h1, h2, hd⟩ := concrete_values m
  have hn : (ofRat 1000 0 0).IsNearlyZero E = false := by
    have h1000 : ¬ ((1000 : ℚ) ≤ E.KindaSmallNumber) := not_le.mpr htol
    simp [IsNearlyZero, ofRat, h1000]
  have hr : aimRotation m E ⟨some ControllerKind.player, cam, ofRat 0 0 0, rot⟩
      (some (ofRat 0 0 1000, ofRat 1 0 (-1))) = some ((ofRat 1000 0 0).Rotation E) := by
    rw [aimRotation_of_player, hd, hn]
    rfl
  refine ⟨h1, h2, hd, (ofRat 1000 0 0).Rotation E, hr, ?_, h0⟩
  rw [aimTowardMouse_of_some m E _ _ _ hr]

/-- C6 (amended), on the program and the rational engine. -/
theorem aim_concrete_case_witness :
    Distance Arith.single (ofRat 0 0 0) (ofRat 0 0 1000) (ofRat 1 0 (-1)) = fin 1000
    ∧ MouseWorldPosition Arith.single (ofRat 0 0 0) (ofRat 0 0 1000) (ofRat 1 0 (-1))
      = ofRat 1000 0 0
    ∧ Direction Arith.single (ofRat 0 0 0) (ofRat 0 0 1000) (ofRat 1 0 (-1)) = ofRat 1000 0 0
    ∧ ∃ R : FRotator,
        aimRotation Arith.single Sample.engine ⟨some ControllerKind.player,
              Sample.player.CameraRotation, ofRat 0 0 0, Sample.player.Rotation⟩
            (some (ofRat 0 0 1000, ofRat 1 0 (-1))) = some R
        ∧ (AimTowardMouse Arith.single Sample.engine ⟨some ControllerKind.player,
              Sample.player.CameraRotation, ofRat 0 0 0, Sample.player.Rotation⟩
            (some (ofRat 0 0 1000, ofRat 1 0 (-1)))).Rotation = R
        ∧ R.Yaw = fin 0 :=
  aim_concrete_case Arith.single Sample.engine Sample.player.CameraRotation
    Sample.player.Rotation
    (by norm_num [Sample.engine])
    (by norm_num [Sample.engine, Sample.Atan2, Sample.atan2Rat, Sample.atanPoly])

/-- The call made by `AimTowardMouse` depends on the actor only through its
controller and its location. -/
theorem aimRotation_congr (m : Arith) (E : Engine) (s t : ACapstoneCharacter)
    (mouse : Option (FVector × FVector)) (hc : s.Controller = t.Controller)
    (hl : s.Location = t.Location) : aimRotation m E s mouse = aimRotation m E t mouse := by
  simp only [aimRotation, hasPlayerController, hc, hl]

/-- C7: the aim step reads only the actor's controller and position and writes
only its rotation: the call it makes does not depend on the current rotation,
the position, the controller and the camera are never changed, and applying the
step twice with the same ray gives the same call and the same pose as applying
it once. -/
theorem aim_idempotent (m : Arith) (E : Engine) (self : ACapstoneCharacter)
    (mouse : Option (FVector × FVector)) :
    AimTowardMouse m E (AimTowardMouse m E self mouse) mouse = AimTowardMouse m E self mouse
    ∧ aimRotation m E (AimTowardMouse m E self mouse) mouse = aimRotation m E self mouse
    ∧ (AimTowardMouse m E self mouse).Location = self.Location
    ∧ (AimTowardMouse m E self mouse).Controller = self.Controller
    ∧ (AimTowardMouse m E self mouse).CameraRotation = self.CameraRotation
    ∧ (∀ r : FRotator,
        aimRotation m E { self with Rotation := r } mouse = aimRotation m E self mouse)
    ∧ (∀ r : FRotator, (AimTowardMouse m E { self with Rotation := r } mouse).Rotation
        = (aimRotation m E self mouse).getD r) := by
  have hL : (AimTowardMouse m E self mouse).Location = self.Location := by
    unfold AimTowardMouse
    cases aimRotation m E self mouse <;> rfl
  have hC : (AimTowardMouse m E self mouse).Controller = self.Controller := by
    unfold AimTowardMouse
    cases aimRotation m E self mouse <;> rfl
  have hCam : (AimTowardMouse m E self mouse).CameraRotation = self.CameraRotation := by
    unfold AimTowardMouse
    cases aimRotation m E self mouse <;> rfl
  have hR := aimRotation_congr m E (AimTowardMouse m E self mouse) self mouse hC hL
  have hset : ∀ r : FRotator,
      aimRotation m E { self with Rotation := r } mouse = aimRotation m E self mouse :=
    fun r => aimRotation_congr m E _ self mouse rfl rfl
  refine ⟨?_, hR, hL, hC, hCam, hset, ?_⟩
  · cases h : aimRotation m E self mouse with
    | none =>
      have hs : AimTowardMouse m E self mouse = self := aimTowardMouse_of_none m E _ _ h
      rw [hs, hs]
    | some R =>
      have hs : AimTowardMouse m E self mouse = self.SetActorRotation R := by
        simp [AimTowardMouse, h]
      rw [h, hs] at hR
      rw [hs]
      show (match aimRotation m E (self.SetActorRotation R) mouse with
        | some NewRotation => (self.SetActorRotation R).SetActorRotation NewRotation
        | none => self.SetActorRotation R) = self.SetActorRotation R
      rw [hR]
      rfl
  · intro r
    unfold AimTowardMouse
    rw [hset r]
    cases aimRotation m E self mouse <;> rfl

/-- C8: for every actor position `A` and ray `(O, Dir)` with `Dir.z ≠ 0`, the
point `MouseWorldPosition = O + Dir * ((A.z - O.z) / Dir.z)` computed by
`AimTowardMouse` has, in exact arithmetic, z-coordinate `A.z`: it lies on the
horizontal plane through the actor's height. -/
theorem mouse_position_at_actor_height (ax ay az ox oy oz dx dy dz : ℚ) (hz : dz ≠ 0) :
    MouseWorldPosition Arith.exact (ofRat ax ay az) (ofRat ox oy oz) (ofRat dx dy dz)
      = ofRat (ox + dx * ((az - oz) / dz)) (oy + dy * ((az - oz) / dz)) az
    ∧ (MouseWorldPosition Arith.exact (ofRat ax ay az) (ofRat ox oy oz) (ofRat dx dy dz)).Z
      = (ofRat ax ay az).Z := by
  have hzz : oz + dz * ((az - oz) / dz) = az := by
    field_simp
  rw [mouseWorldPosition_of_store Arith.exact ax ay az ox oy oz dx dy dz _ hz rfl, hzz]
  exact ⟨rfl, rfl⟩

/-- C8, at a concrete input: actor at `(3,4,5)`, ray from `(0,0,1000)` along
`(1,2,-5)`. -/
theorem mouse_position_at_actor_height_witness :
    MouseWorldPosition Arith.exact (ofRat 3 4 5) (ofRat 0 0 1000) (ofRat 1 2 (-5))
      = ofRat (0 + 1 * ((5 - 1000) / (-5))) (0 + 2 * ((5 - 1000) / (-5))) 5
    ∧ (MouseWorldPosition Arith.exact (ofRat 3 4 5) (ofRat 0 0 1000) (ofRat 1 2 (-5))).Z
      = (ofRat 3 4 5).Z :=
  mouse_position_at_actor_height 3 4 5 0 0 1000 1 2 (-5) (by norm_num)

/-- C9: for every `A`, `O`, `Dir` with `Dir.z ≠ 0` and every scalar `k ≠ 0`
(of either sign), in exact arithmetic the intersection point, the horizontal
direction, the call made and the resulting pose computed from `(A, O, k * Dir)`
are those computed from `(A, O, Dir)`. -/
theorem aim_ray_scale_invariant (E : Engine) (c : Option ControllerKind) (cam rot : FRotator)
    (ax ay az ox oy oz dx dy dz k : ℚ) (hz : dz ≠ 0) (hk : k ≠ 0) :
    MouseWorldPosition Arith.exact (ofRat ax ay az) (ofRat ox oy oz)
        (ofRat (k * dx) (k * dy) (k * dz))
      = MouseWorldPosition Arith.exact (ofRat ax ay az) (ofRat ox oy oz) (ofRat dx dy dz)
    ∧ Direction Arith.exact (ofRat ax ay az) (ofRat ox oy oz) (ofRat (k * dx) (k * dy) (k * dz))
      = Direction Arith.exact (ofRat ax ay az) (ofRat ox oy oz) (ofRat dx dy dz)
    ∧ aimRotation Arith.exact E ⟨c, cam, ofRat ax ay az, rot⟩
        (some (ofRat ox oy oz, ofRat (k * dx) (k * dy) (k * dz)))
      = aimRotation Arith.exact E ⟨c, cam, ofRat ax ay az, rot⟩
        (some (ofRat ox oy oz, ofRat dx dy dz))
    ∧ AimTowardMouse Arith.exact E ⟨c, cam, ofRat ax ay az, rot⟩
        (some (ofRat ox oy oz, ofRat (k * dx) (k * dy) (k * dz)))
      = AimTowardMouse Arith.exact E ⟨c, cam, ofRat ax ay az, rot⟩
        (some (ofRat ox oy oz, ofRat dx dy dz)) := by
  have hkz : k * dz ≠ 0 := mul_ne_zero hk hz
  have hscale : ∀ d : ℚ, k * d * ((az - oz) / (k * dz)) = d * ((az - oz) / dz) := by
    intro d
    field_simp
    ring
  have hP : MouseWorldPosition Arith.exact (ofRat ax ay az) (ofRat ox oy oz)
        (ofRat (k * dx) (k * dy) (k * dz))
      = MouseWorldPosition Arith.exact (ofRat ax ay az) (ofRat ox oy oz) (ofRat dx dy dz) := by
    rw [mouseWorldPosition_of_store Arith.exact ax ay az ox oy oz (k * dx) (k * dy) (k * dz) _
        hkz rfl,
      mouseWorldPosition_of_store Arith.exact ax ay az ox oy oz dx dy dz _ hz rfl,
      hscale, hscale, hscale]
  have hD : Direction Arith.exact (ofRat ax ay az) (ofRat ox oy oz)
        (ofRat (k * dx) (k * dy) (k * dz))
      = Direction Arith.exact (ofRat ax ay az) (ofRat ox oy oz) (ofRat dx dy dz) := by
    simp only [Direction, hP]
  have hR : aimRotation Arith.exact E ⟨c, cam, ofRat ax ay az, rot⟩
        (some (ofRat ox oy oz, ofRat (k * dx) (k * dy) (k * dz)))
      = aimRotation Arith.exact E ⟨c, cam, ofRat ax ay az, rot⟩
        (some (ofRat ox oy oz, ofRat dx dy dz)) := by
    simp only [aimRotation, hD]
  refine ⟨hP, hD, hR, ?_⟩
  simp only [AimTowardMouse, hR]

/-- C9, at a concrete input: the direction `(1,2,-5)` reversed and doubled. -/
theorem aim_ray_scale_invariant_witness :
    MouseWorldPosition Arith.exact (ofRat 3 4 5) (ofRat 0 0 1000)
        (ofRat ((-2) * 1) ((-2) * 2) ((-2) * (-5)))
      = MouseWorldPosition Arith.exact (ofRat 3 4 5) (ofRat 0 0 1000) (ofRat 1 2 (-5)) :=
  (aim_ray_scale_invariant Sample.engine (some ControllerKind.player)
    Sample.player.CameraRotation Sample.player.Rotation 3 4 5 0 0 1000 1 2 (-5) (-2)
    (by norm_num) (by norm_num)).1

/-! ## Camera-relative movement -/

/-- The result of `GetSafeNormal` on a finite horizontal vector. -/
theorem getSafeNormal_ofRat (E : Engine) (a b S k : ℚ) (hS : a * a + b * b = S)
    (hk : E.InvSqrt (fin S) = fin k) :
    GetSafeNormal E (ofRat a b 0)
      = ofRat (a * safeNormalFactor E S k) (b * safeNormalFactor E S k) 0 := by
  have hsum : fin a * fin a + fin b * fin b + fin 0 * fin 0 = fin S := by
    simp [hS]
  simp only [GetSafeNormal, ofRat, hsum, fin_eq, fin_lt, hk, safeNormalFactor]
  by_cases h1 : S = 1
  · simp [h1]
  · by_cases h2 : S < E.SmallNumber
    · simp [h1, h2, ofRat]
    · simp [h1, h2]

/-- The two unit axes used by `Move`, for an engine whose sine and cosine of 0
are 0 and 1, whose sine and cosine of the yaw are the finite values `s` and
`co`, and whose inverse square root of `co² + s²` is the finite value `k`. -/
theorem unit_axes (E : Engine) (yaw s co k : ℚ)
    (h0 : E.SinCos (E.DegreesToRadians (fin 0)) = (fin 0, fin 1))
    (hyaw : E.SinCos (E.DegreesToRadians (fin yaw)) = (fin s, fin co))
    (hk : E.InvSqrt (fin (co * co + s * s)) = fin k) :
    (FRotationMatrix.make E ⟨fin 0, fin yaw, fin 0⟩).GetUnitAxis E EAxis.X
      = ofRat (co * safeNormalFactor E (co * co + s * s) k)
          (s * safeNormalFactor E (co * co + s * s) k) 0
    ∧ (FRotationMatrix.make E ⟨fin 0, fin yaw, fin 0⟩).GetUnitAxis E EAxis.Y
      = ofRat (-s * safeNormalFactor E (co * co + s * s) k)
          (co * safeNormalFactor E (co * co + s * s) k) 0 := by
  have hrow0 : (FRotationMatrix.make E ⟨fin 0, fin yaw, fin 0⟩).GetScaledAxis EAxis.X
      = ofRat co s 0 := by
    simp [FRotationMatrix.GetScaledAxis, FRotationMatrix.make, h0, hyaw, ofRat]
  have hrow1 : (FRotationMatrix.make E ⟨fin 0, fin yaw, fin 0⟩).GetScaledAxis EAxis.Y
      = ofRat (-s) co 0 := by
    simp [FRotationMatrix.GetScaledAxis, FRotationMatrix.make, h0, hyaw, ofRat]
  constructor
  · rw [FRotationMatrix.GetUnitAxis, hrow0]
    exact getSafeNormal_ofRat E co s _ k rfl hk
  · rw [FRotationMatrix.GetUnitAxis, hrow1]
    exact getSafeNormal_ofRat E (-s) co _ k (by ring) hk

/-- A rational whose numerator lies strictly between two consecutive squares
and whose denominator is a square has no rational square root. -/
theorem no_rational_root (N D r : ℕ) (hD : 0 < D) (h1 : r * r < N)
    (h2 : N < (r + 1) * (r + 1)) (k : ℚ) : k * k * ((N : ℚ) / ((D : ℚ) * D)) ≠ 1 := by
  intro h
  have hDq : (D : ℚ) ≠ 0 := by exact_mod_cast hD.ne.symm
  have hsq : IsSquare (N : ℚ) := by
    have hk : k ≠ 0 := by
      rintro rfl
      simp at h
    refine ⟨D / k, ?_⟩
    field_simp at h ⊢
    linarith
  obtain ⟨t, ht⟩ := Rat.isSquare_natCast_iff.mp hsq
  rw [ht] at h1 h2
  have a1 : r < t := Nat.mul_self_lt_mul_self_iff.mp h1
  have a2 : t < r + 1 := Nat.mul_self_lt_mul_self_iff.mp h2
  omega

/-- The sine and cosine of 45 degrees in the rational engine. -/
theorem sample_sinCos_45 :
    Sample.engine.SinCos (Sample.engine.DegreesToRadians (fin 45))
      = (fin (Sample.sinPoly (355 / 452)), fin (Sample.cosPoly (355 / 452))) := by
  have hr : Sample.reduce (355 / 452) = 355 / 452 := by
    unfold Sample.reduce
    rw [roundEven_eq _ 0 (by norm_num [Sample.Pi]) (by norm_num [Sample.Pi])]
    simp
  have hd : Sample.engine.DegreesToRadians (fin 45) = fin (355 / 452) := by
    show fin 45 * fin (Sample.Pi / 180) = fin (355 / 452)
    norm_num [Sample.Pi]
  rw [hd]
  show (fin (Sample.sinRat (355 / 452)), fin (Sample.cosRat (355 / 452))) = _
  have hs : Sample.sinRat (355 / 452) = Sample.sinPoly (355 / 452) := by
    unfold Sample.sinRat
    rw [hr]
    norm_num [Sample.Pi]
  have hc : Sample.cosRat (355 / 452) = Sample.cosPoly (355 / 452) := by
    unfold Sample.cosRat
    rw [hr]
    norm_num [Sample.Pi]
  rw [hs, hc]

/-- The sine and cosine of 0 in the rational engine. -/
theorem sample_sinCos_0 :
    Sample.engine.SinCos (Sample.engine.DegreesToRadians (fin 0)) = (fin 0, fin 1) := by
  have hr : Sample.reduce 0 = 0 := by
    unfold Sample.reduce
    rw [roundEven_eq _ 0 (by norm_num) (by norm_num)]
    simp
  have hd : Sample.engine.DegreesToRadians (fin 0) = fin 0 := by
    show fin 0 * fin (Sample.Pi / 180) = fin 0
    simp
  rw [hd]
  show (fin (Sample.sinRat 0), fin (Sample.cosRat 0)) = _
  have hs : Sample.sinRat 0 = 0 := by
    unfold Sample.sinRat
    rw [hr]
    norm_num [Sample.Pi, Sample.sinPoly]
  have hc : Sample.cosRat 0 = 1 := by
    unfold Sample.cosRat
    rw [hr]
    norm_num [Sample.Pi, Sample.cosPoly]
  rw [hs, hc]

/-- The squared length of the sine and cosine of 45 degrees in the rational
engine. -/
theorem sample_square_sum_45 :
    Sample.cosPoly (355 / 452) * Sample.cosPoly (355 / 452)
        + Sample.sinPoly (355 / 452) * Sample.sinPoly (355 / 452)
      = ((65989826193396184619539415611730548658876364634248801817698542769202361 : ℕ) : ℚ)
        / (((256884850088010783106899695533817856 : ℕ) : ℚ)
          * ((256884850088010783106899695533817856 : ℕ) : ℚ)) := by
  norm_num [Sample.sinPoly, Sample.cosPoly]

/-- The inverse square root of a positive finite value is finite in the
rational engine. -/
theorem sample_invSqrt (q : ℚ) (hq : 0 < q) :
    Sample.engine.InvSqrt (fin q) = fin (1 / Sample.newton q) := by
  have hstep : ∀ x : ℚ, 0 < x → 0 < (x + q / x) / 2 := by
    intro x hx
    positivity
  have hn : 0 < Sample.newton q := by
    unfold Sample.newton
    exact hstep _ (hstep _ (hstep _ (hstep _ (hstep _ (by positivity)))))
  show fin 1 / Sample.Sqrt (fin q) = fin (1 / Sample.newton q)
  simp [Sample.Sqrt, not_lt.mpr hq.le, hq.ne.symm, hn.ne.symm]

/-- C10 (as stated): for the rational engine and the camera of the constructor
(yaw 45 degrees), `Move` requests the first input along a `Forward` axis that
is not of unit length. -/
theorem move_forward_not_unit :
    Move Sample.engine Sample.player ⟨fin 2, fin 3⟩
      = [((FRotationMatrix.make Sample.engine ⟨fin 0, fin 45, fin 0⟩).GetUnitAxis
            Sample.engine EAxis.X, fin 3),
          ((FRotationMatrix.make Sample.engine ⟨fin 0, fin 45, fin 0⟩).GetUnitAxis
            Sample.engine EAxis.Y, fin 2)]
    ∧ FVector.dot ((FRotationMatrix.make Sample.engine ⟨fin 0, fin 45, fin 0⟩).GetUnitAxis
          Sample.engine EAxis.X)
        ((FRotationMatrix.make Sample.engine ⟨fin 0, fin 45, fin 0⟩).GetUnitAxis
          Sample.engine EAxis.X) ≠ fin 1 := by
  have hpos : 0 < Sample.cosPoly (355 / 452) * Sample.cosPoly (355 / 452)
      + Sample.sinPoly (355 / 452) * Sample.sinPoly (355 / 452) := by
    rw [sample_square_sum_45]
    positivity
  obtain ⟨hF, -⟩ := unit_axes Sample.engine 45 _ _ _ sample_sinCos_0 sample_sinCos_45
    (sample_invSqrt _ hpos)
  refine ⟨?_, ?_⟩
  · simp [Move, Sample.player]
  · rw [hF]
    intro h
    have h1 : Sample.cosPoly (355 / 452)
          * safeNormalFactor Sample.engine (Sample.cosPoly (355 / 452)
            * Sample.cosPoly (355 / 452) + Sample.sinPoly (355 / 452)
            * Sample.sinPoly (355 / 452)) (1 / Sample.newton (Sample.cosPoly (355 / 452)
            * Sample.cosPoly (355 / 452) + Sample.sinPoly (355 / 452)
            * Sample.sinPoly (355 / 452)))
          * (Sample.cosPoly (355 / 452)
          * safeNormalFactor Sample.engine (Sample.cosPoly (355 / 452)
            * Sample.cosPoly (355 / 452) + Sample.sinPoly (355 / 452)
            * Sample.sinPoly (355 / 452)) (1 / Sample.newton (Sample.cosPoly (355 / 452)
            * Sample.cosPoly (355 / 452) + Sample.sinPoly (355 / 452)
            * Sample.sinPoly (355 / 452))))
        + Sample.sinPoly (355 / 452)
          * safeNormalFactor Sample.engine (Sample.cosPoly (355 / 452)
            * Sample.cosPoly (355 / 452) + Sample.sinPoly (355 / 452)
            * Sample.sinPoly (355 / 452)) (1 / Sample.newton (Sample.cosPoly (355 / 452)
            * Sample.cosPoly (355 / 452) + Sample.sinPoly (355 / 452)
            * Sample.sinPoly (355 / 452)))
          * (Sample.sinPoly (355 / 452)
          * safeNormalFactor Sample.engine (Sample.cosPoly (355 / 452)
            * Sample.cosPoly (355 / 452) + Sample.sinPoly (355 / 452)
            * Sample.sinPoly (355 / 452)) (1 / Sample.newton (Sample.cosPoly (355 / 452)
            * Sample.cosPoly (355 / 452) + Sample.sinPoly (355 / 452)
            * Sample.sinPoly (355 / 452)))) + 0 * 0 = 1 := by
      have h2 := h
      simp only [FVector.dot, ofRat, fin_mul, fin_add] at h2
      injection h2
    generalize safeNormalFactor Sample.engine _ _ = f at h1
    have h3 : f * f * (Sample.cosPoly (355 / 452) * Sample.cosPoly (355 / 452)
        + Sample.sinPoly (355 / 452) * Sample.sinPoly (355 / 452)) = 1 := by
      linarith
    rw [sample_square_sum_45] at h3
    exact no_rational_root _ _ 256884850065931651117596917437205872 (by norm_num)
      (by norm_num) (by norm_num) f h3

/-- C10 (amended): for every 2D input `(x, y)` and every camera rotation with
yaw `yaw`, for an engine whose sine and cosine of 0 are 0 and 1, whose sine and
cosine of `yaw` are the finite values `s` and `co` and whose inverse square
root of `co² + s²` is the finite value `k`: the X and Y unit axes of the
yaw-only rotation `(0, yaw, 0)` are `Forward = f * (co, s, 0)` and
`Right = f * (-s, co, 0)` for the normalisation factor `f` of `GetSafeNormal`;
they are horizontal, orthogonal and of the same length, which is 1 when
`co² + s² = 1`; with a controller `Move` requests `y` along `Forward` then `x`
along `Right`, whatever the camera's pitch and roll; without a controller it
requests nothing; the requested movement has no vertical component. -/
theorem move_requests (E : Engine) (c : Option ControllerKind) (loc : FVector) (rot : FRotator)
    (p r : FNum) (x y yaw s co k : ℚ)
    (h0 : E.SinCos (E.DegreesToRadians (fin 0)) = (fin 0, fin 1))
    (hyaw : E.SinCos (E.DegreesToRadians (fin yaw)) = (fin s, fin co))
    (hk : E.InvSqrt (fin (co * co + s * s)) = fin k) :
    (FRotationMatrix.make E ⟨fin 0, fin yaw, fin 0⟩).GetUnitAxis E EAxis.X
      = ofRat (co * safeNormalFactor E (co * co + s * s) k)
          (s * safeNormalFactor E (co * co + s * s) k) 0
    ∧ (FRotationMatrix.make E ⟨fin 0, fin yaw, fin 0⟩).GetUnitAxis E EAxis.Y
      = ofRat (-s * safeNormalFactor E (co * co + s * s) k)
          (co * safeNormalFactor E (co * co + s * s) k) 0
    ∧ (c ≠ none → Move E ⟨c, ⟨p, fin yaw, r⟩, loc, rot⟩ ⟨fin x, fin y⟩
        = [((FRotationMatrix.make E ⟨fin 0, fin yaw, fin 0⟩).GetUnitAxis E EAxis.X, fin y),
            ((FRotationMatrix.make E ⟨fin 0, fin yaw, fin 0⟩).GetUnitAxis E EAxis.Y, fin x)])
    ∧ Move E ⟨none, ⟨p, fin yaw, r⟩, loc, rot⟩ ⟨fin x, fin y⟩ = []
    ∧ FVector.dot ((FRotationMatrix.make E ⟨fin 0, fin yaw, fin 0⟩).GetUnitAxis E EAxis.X)
        ((FRotationMatrix.make E ⟨fin 0, fin yaw, fin 0⟩).GetUnitAxis E EAxis.Y) = fin 0
    ∧ FVector.dot ((FRotationMatrix.make E ⟨fin 0, fin yaw, fin 0⟩).GetUnitAxis E EAxis.X)
        ((FRotationMatrix.make E ⟨fin 0, fin yaw, fin 0⟩).GetUnitAxis E EAxis.X)
      = FVector.dot ((FRotationMatrix.make E ⟨fin 0, fin yaw, fin 0⟩).GetUnitAxis E EAxis.Y)
        ((FRotationMatrix.make E ⟨fin 0, fin yaw, fin 0⟩).GetUnitAxis E EAxis.Y)
    ∧ (co * co + s * s = 1 →
        (FRotationMatrix.make E ⟨fin 0, fin yaw, fin 0⟩).GetUnitAxis E EAxis.X = ofRat co s 0
        ∧ (FRotationMatrix.make E ⟨fin 0, fin yaw, fin 0⟩).GetUnitAxis E EAxis.Y
          = ofRat (-s) co 0
        ∧ FVector.dot (ofRat co s 0) (ofRat co s 0) = fin 1
        ∧ FVector.dot (ofRat (-s) co 0) (ofRat (-s) co 0) = fin 1)
    ∧ (pendingInput (Move E ⟨c, ⟨p, fin yaw, r⟩, loc, rot⟩ ⟨fin x, fin y⟩)).Z = fin 0 := by
  obtain ⟨hF, hR⟩ := unit_axes E yaw s co k h0 hyaw hk
  have hM : c ≠ none → Move E ⟨c, ⟨p, fin yaw, r⟩, loc, rot⟩ ⟨fin x, fin y⟩
      = [((FRotationMatrix.make E ⟨fin 0, fin yaw, fin 0⟩).GetUnitAxis E EAxis.X, fin y),
          ((FRotationMatrix.make E ⟨fin 0, fin yaw, fin 0⟩).GetUnitAxis E EAxis.Y, fin x)] := by
    intro hc
    simp only [Move, hc, ne_eq, not_false_eq_true, if_true]
  have hN : Move E ⟨none, ⟨p, fin yaw, r⟩, loc, rot⟩ ⟨fin x, fin y⟩ = [] := by
    simp [Move]
  refine ⟨hF, hR, hM, hN, ?_, ?_, ?_, ?_⟩
  · rw [hF, hR]
    simp only [FVector.dot, ofRat, fin_mul, fin_add]
    congr 1
    ring
  · rw [hF, hR]
    simp only [FVector.dot, ofRat, fin_mul, fin_add]
    congr 1
    ring
  · intro h1
    have hf : safeNormalFactor E (co * co + s * s) k = 1 := by
      simp [safeNormalFactor, h1]
    rw [hF, hR, hf]
    refine ⟨by simp, by simp, ?_, ?_⟩
    · simp only [FVector.dot, ofRat, fin_mul, fin_add]
      congr 1
      linarith
    · simp only [FVector.dot, ofRat, fin_mul, fin_add]
      congr 1
      linarith
  · cases c with
    | none => rw [hN]; rfl
    | some d =>
      rw [hM (by simp), hF, hR]
      simp [pendingInput, ofRat]

/-- C10 (amended), for the rational engine and the camera of the constructor
(pitch -45, yaw 45): the two requests made by a controlled character. -/
theorem move_requests_witness :
    Move Sample.engine ⟨some ControllerKind.player, ⟨fin (-45), fin 45, fin 0⟩,
        ofRat 0 0 0, Sample.player.Rotation⟩ ⟨fin 2, fin 3⟩
      = [((FRotationMatrix.make Sample.engine ⟨fin 0, fin 45, fin 0⟩).GetUnitAxis
            Sample.engine EAxis.X, fin 3),
          ((FRotationMatrix.make Sample.engine ⟨fin 0, fin 45, fin 0⟩).GetUnitAxis
            Sample.engine EAxis.Y, fin 2)]
    ∧ FVector.dot ((FRotationMatrix.make Sample.engine ⟨fin 0, fin 45, fin 0⟩).GetUnitAxis
          Sample.engine EAxis.X)
        ((FRotationMatrix.make Sample.engine ⟨fin 0, fin 45, fin 0⟩).GetUnitAxis
          Sample.engine EAxis.Y) = fin 0 :=
  have hpos : 0 < Sample.cosPoly (355 / 452) * Sample.cosPoly (355 / 452)
      + Sample.sinPoly (355 / 452) * Sample.sinPoly (355 / 452) := by
    rw [sample_square_sum_45]
    positivity
  have h := move_requests Sample.engine (some ControllerKind.player) (ofRat 0 0 0)
    Sample.player.Rotation (fin (-45)) (fin 0) 2 3 45 _ _ _ sample_sinCos_0 sample_sinCos_45
    (sample_invSqrt _ hpos)
  ⟨h.2.2.1 (by simp), h.2.2.2.2.1⟩

end ACapstoneCharacter

end Capstone
